import Mathlib

/-!
# Verification of the tt-jukebox matching and reconciliation engine

Shallow embedding of the core decision functions of `src/tt-jukebox.py`
(`filter_by_hardware`, `match_model_name`, `match_task`,
`check_environment_match` with its inner `commits_match`,
`apply_conservative_params`, `format_cli_command`) and proofs of the frozen
claims about them.

Modelling conventions:
 - Python strings are modelled as `List Char` (`Str`); Lean's `Char.toUpper`
   and `Char.toLower` agree with Python's `str.upper`/`str.lower` on the
   ASCII data (hardware names, model names, commit hashes, status enums)
   the program handles.
 - Python `needle in hay` on strings is substring containment, embedded as
   `strContains hay needle`.
 - Catalog records are embedded as a structure (`ModelSpec`) holding exactly
   the fields the functions read; a field read with `dict.get(k, default)`
   is an `Option` (absent key = `none`) or carries the default inline when
   the program cannot distinguish the absent key from the default.
 - `apply_conservative_params` mutates Python dict objects, so for it alone
   records are embedded in an explicit object store (`Store`, addresses are
   list indices), letting non-mutation of the input be stated and proved.
-/

/-- Python strings, as lists of characters. -/
abbrev Str := List Char

/-- Shorthand turning a Lean string literal into the embedded string type. -/
def S (s : String) : Str := s.toList

/-- Python `str.upper()` (the data handled is ASCII, where `Char.toUpper`
agrees with Python). -/
def pyUpper (s : Str) : Str := s.map Char.toUpper

/-- Python `str.lower()` (ASCII data, as for `pyUpper`). -/
def pyLower (s : Str) : Str := s.map Char.toLower

/-- Python `needle in hay` for strings: substring containment. -/
def strContains (hay needle : Str) : Bool :=
  match hay with
  | [] => needle.isEmpty
  | _ :: t => needle.isPrefixOf hay || strContains t needle

/-- Python `s.split(sep)` for a one-character separator: splits on every
occurrence, keeping empty pieces (`''.split('-') == ['']`). -/
def pySplit (sep : Char) : Str → List Str
  | [] => [[]]
  | c :: rest =>
    match pySplit sep rest with
    | [] => [[]]
    | h :: t => if c = sep then [] :: h :: t else (c :: h) :: t

/-! ## Data model

`ModelSpec` embeds one catalog record, holding exactly the fields the core
functions read (src/tt-jukebox.py).  Fields read via `spec.get(k, d)` where
an absent key is indistinguishable from the default are stored with the
default applied (`arch_name`: `spec.get('env_vars', {}).get('ARCH_NAME', '')`;
`tt_metal_commit`, `vllm_commit`: default `''`).  Fields whose absence the
program distinguishes are `Option`s. -/

structure ModelSpec where
  device_type : Option Str
  status : Option Str
  arch_name : Str
  param_count : Option Int
  model_name : Str
  model_id : Str
  tt_metal_commit : Str
  vllm_commit : Str
  device_model_spec : Option (Option Int × Option Int × Option Int)
  tensor_parallel_size : Option Int
deriving DecidableEq, Repr

/-- `max_context` of the record's `device_model_spec`, `none` when the map or
the key is absent. -/
def ModelSpec.max_context (s : ModelSpec) : Option Int :=
  s.device_model_spec.bind (·.1)

/-- `max_num_seqs` of the record's `device_model_spec`. -/
def ModelSpec.max_num_seqs (s : ModelSpec) : Option Int :=
  s.device_model_spec.bind (·.2.1)

/-- `block_size` of the record's `device_model_spec`. -/
def ModelSpec.block_size (s : ModelSpec) : Option Int :=
  s.device_model_spec.bind (·.2.2)

/-! ## Environment reconciler (src/tt-jukebox.py:686-734) -/

/-- The result dict of `check_environment_match`. -/
structure EnvMatch where
  metal_compatible : Bool
  vllm_compatible : Bool
  metal_diff : Option Str
  vllm_diff : Option Str
  needs_setup : Bool
deriving DecidableEq, Repr

/-- `commits_match` (src/tt-jukebox.py:692-697): falsy or placeholder guard,
then comparison of the prefixes of length `min(len(current), len(required), 7)`.
Python `s[:n]` is `List.take n`. -/
def commits_match (current required : Str) : Bool :=
  if current = [] ∨ required = [] ∨ required = S "None" ∨ required = S "null" then
    false
  else
    let min_len := min (min current.length required.length) 7
    current.take min_len = required.take min_len

/-- `check_environment_match` (src/tt-jukebox.py:686-734).  `metal_info` /
`vllm_info` are the detected toolchain states; the only field the function
reads is `info.get('commit', '')`, so each is embedded as `Option Str`
(`none` = toolchain absent, the commit string otherwise, `''` when the
`commit` key is missing). -/
def check_environment_match (spec : ModelSpec) (metal_info vllm_info : Option Str) :
    EnvMatch :=
  let init : EnvMatch :=
    { metal_compatible := false, vllm_compatible := false,
      metal_diff := none, vllm_diff := none, needs_setup := true }
  match metal_info, vllm_info with
  | some current_metal, some current_vllm =>
    let spec_metal := spec.tt_metal_commit
    let spec_vllm := spec.vllm_commit
    let m1 :=
      if spec_metal ≠ [] ∧ current_metal ≠ [] then
        if commits_match current_metal spec_metal then
          { init with metal_compatible := true }
        else
          { init with metal_diff := some (current_metal ++ S " -> " ++ spec_metal) }
      else init
    let m2 :=
      if spec_vllm ≠ [] ∧ current_vllm ≠ [] then
        if commits_match current_vllm spec_vllm then
          { m1 with vllm_compatible := true }
        else
          { m1 with vllm_diff := some (current_vllm ++ S " -> " ++ spec_vllm) }
      else m1
    if m2.metal_compatible ∧ m2.vllm_compatible then
      { m2 with needs_setup := false }
    else m2
  | _, _ => init

/-! ## Compatibility filter (src/tt-jukebox.py:541-615) -/

/-- The `arch_families` table of `filter_by_hardware`, in the dict's
insertion order. -/
def arch_families : List (Str × List Str) :=
  [(S "wormhole_b0", [S "N150", S "N300", S "T3K", S "N150X4"]),
   (S "blackhole", [S "P100", S "P150", S "P150X4", S "P150X8"])]

/-- The loop finding `user_arch_family`: the first family one of whose
device names is a substring of the (uppercased) hardware string; `none`
otherwise. -/
def find_user_arch_family (hardware_upper : Str) : Option Str :=
  (arch_families.find? fun p => p.2.any fun d => strContains hardware_upper d).map
    (·.1)

/-- The `device_numbers` size table (src/tt-jukebox.py:595-598). -/
def device_numbers : List (Str × Int) :=
  [(S "N150", 150), (S "N300", 300), (S "T3K", 3000), (S "N150X4", 600),
   (S "P100", 100), (S "P150", 150), (S "P150X4", 600), (S "P150X8", 1200)]

/-- `device_numbers.get(key, 0)`. -/
def device_number (key : Str) : Int :=
  ((device_numbers.find? fun p => decide (p.1 = key)).map (·.2)).getD 0

/-- The exact-device-match test of `filter_by_hardware`:
`hardware_upper in device_type or device_type in hardware_upper`
(both already uppercased). -/
def exact_device_match (hardware_upper device_type_upper : Str) : Bool :=
  strContains device_type_upper hardware_upper ||
    strContains hardware_upper device_type_upper

/-- The experimental-compatibility evaluation of one record
(src/tt-jukebox.py:582-613): the three signals, each appending its reason
fragment; `some joined_reason` when at least one signal fired, `none`
otherwise.  `device_type_upper` is the record's uppercased `device_type`. -/
def experimental_eval (hardware_upper : Str) (user_arch_family : Option Str)
    (device_type_upper : Str) (spec : ModelSpec) : Option Str :=
  let status := pyUpper (spec.status.getD (S "UNKNOWN"))
  let param_count := spec.param_count.getD 999
  let spec_arch := spec.arch_name
  let r1 : List Str :=
    if spec_arch ≠ [] ∧ user_arch_family = some spec_arch then
      [S "same architecture (" ++ spec_arch ++ S ")"]
    else []
  let user_size := device_number hardware_upper
  let spec_size := device_number device_type_upper
  let r2 : List Str :=
    if user_size > spec_size ∧ param_count ≤ 8 then
      [S "smaller model on larger device"]
    else []
  let r3 : List Str :=
    if status = S "EXPERIMENTAL" then [S "officially marked experimental"] else []
  let reasons := r1 ++ r2 ++ r3
  if reasons = [] then none else some ((S ", ").intercalate reasons)

/-- The record loop of `filter_by_hardware`, mirroring the two `append`s.
Experimental records are returned together with the `_compatibility_reason`
annotation the code writes onto them. -/
def filter_by_hardware_go (hardware_upper : Str) (user_arch_family : Option Str)
    (include_experimental : Bool) :
    List ModelSpec → List ModelSpec × List (ModelSpec × Str)
  | [] => ([], [])
  | spec :: rest =>
    let r := filter_by_hardware_go hardware_upper user_arch_family
      include_experimental rest
    match spec.device_type with
    | none => r
    | some dt =>
      let device_type := pyUpper dt
      if exact_device_match hardware_upper device_type then
        (spec :: r.1, r.2)
      else if include_experimental then
        match experimental_eval hardware_upper user_arch_family device_type spec with
        | some reason => (r.1, (spec, reason) :: r.2)
        | none => r
      else r

/-- `filter_by_hardware` (src/tt-jukebox.py:541-615). -/
def filter_by_hardware (specs : List ModelSpec) (hardware : Str)
    (include_experimental : Bool) : List ModelSpec × List (ModelSpec × Str) :=
  let hardware_upper := pyUpper hardware
  let user_arch_family := find_user_arch_family hardware_upper
  filter_by_hardware_go hardware_upper user_arch_family include_experimental specs

/-! ## Query matcher (src/tt-jukebox.py:618-683)

`match_model_name` and `match_task` write a `match_score` onto each matched
record and return the records; the embedding returns `(record, score)`
pairs.  Python's `list.sort(key=..., reverse=True)` is a stable descending
sort by key; `sort_by_score_desc` below is the stable descending insertion
sort, extensionally the same function. -/

/-- Insert a scored record into a list sorted descending by score, after all
entries with a greater-or-equal score (so earlier-inserted equal scores stay
first). -/
def insert_score_desc (x : ModelSpec × Nat) :
    List (ModelSpec × Nat) → List (ModelSpec × Nat)
  | [] => [x]
  | y :: ys => if y.2 ≤ x.2 then x :: y :: ys else y :: insert_score_desc x ys

/-- Stable descending sort by score: the semantics of
`matches.sort(key=lambda x: x.get('match_score', 0), reverse=True)`
(src/tt-jukebox.py:643). -/
def sort_by_score_desc : List (ModelSpec × Nat) → List (ModelSpec × Nat)
  | [] => []
  | x :: xs => insert_score_desc x (sort_by_score_desc xs)

/-- The tier assignment of `match_model_name` for one record
(src/tt-jukebox.py:626-640): the score of the highest matching tier, `none`
when no tier matches.  `model_query_lower` is the lowercased query. -/
def model_name_score (model_query_lower : Str) (spec : ModelSpec) : Option Nat :=
  let model_name := pyLower spec.model_name
  let model_id := pyLower spec.model_id
  if model_query_lower = model_name then some 100
  else if strContains model_name model_query_lower ||
      strContains model_id model_query_lower then some 80
  else if (pySplit '-' model_name).any
      (fun word => model_query_lower.isPrefixOf word) then some 60
  else none

/-- `match_model_name` (src/tt-jukebox.py:618-646): assign tiers in catalog
order, then sort stably by score, descending. -/
def match_model_name (specs : List ModelSpec) (model_query : Str) :
    List (ModelSpec × Nat) :=
  let model_query_lower := pyLower model_query
  let scored := specs.filterMap
    (fun spec => (model_name_score model_query_lower spec).map (spec, ·))
  sort_by_score_desc scored

/-- The `task_mappings` table of `match_task` (src/tt-jukebox.py:656-666). -/
def task_mappings : List (Str × List Str) :=
  [(S "chat", [S "llama", S "mistral", S "qwen", S "gemma"]),
   (S "code", [S "llama", S "qwen", S "code"]),
   (S "code_assistant", [S "llama", S "qwen", S "code"]),
   (S "generate_image", [S "stable", S "diffusion", S "sd", S "image"]),
   (S "image", [S "stable", S "diffusion", S "sd", S "image"]),
   (S "generate_video", [S "video", S "sora"]),
   (S "video", [S "video", S "sora"]),
   (S "agent", [S "qwen", S "llama", S "agent"]),
   (S "reasoning", [S "qwq", S "reason"])]

/-- `task_mappings.get(task_lower, [task_lower])`. -/
def task_keywords (task_lower : Str) : List Str :=
  (((task_mappings.find? fun p => decide (p.1 = task_lower)).map (·.2)).getD
    [task_lower])

/-- `match_task` (src/tt-jukebox.py:649-683): a record is kept when some
keyword is a substring of its lowercased `model_name` or `model_id` (the
`break` stops at the first matching keyword, so the record is appended
once), with score 70, in catalog order. -/
def match_task (specs : List ModelSpec) (task : Str) : List (ModelSpec × Nat) :=
  let task_lower := pyLower task
  let keywords := task_keywords task_lower
  specs.filterMap fun spec =>
    let model_name := pyLower spec.model_name
    let model_id := pyLower spec.model_id
    if keywords.any (fun kw => strContains model_name kw || strContains model_id kw)
    then some (spec, 70) else none

/-! ## Conservative parameter derivation (src/tt-jukebox.py:741-762)

`apply_conservative_params` works on Python dict objects and its contract is
about mutation (`spec.copy()`, `.get('device_model_spec', {}).copy()`), so
it is embedded over an explicit object store: addresses are indices into a
list of objects, an object is an association list of string keys to values,
and a value can be a reference to another object.  `.copy()` allocates a
fresh address holding the same association list. -/

/-- A Python value as this function sees it: numbers, strings, booleans,
`None`, or a reference to a dict object in the store. -/
inductive HVal where
  | int : Int → HVal
  | str : Str → HVal
  | bool : Bool → HVal
  | ref : Nat → HVal
  | none : HVal
deriving DecidableEq, Repr

/-- A dict object: keys in insertion order. -/
abbrev Obj := List (String × HVal)

/-- The object store; an address is an index. -/
abbrev Store := List Obj

/-- Read the object at an address (`[]` for a dangling address; the claims
constrain addresses to be live). -/
def readObj (st : Store) (a : Nat) : Obj := (st[a]?).getD []

/-- Replace the object at a live address. -/
def writeObj (st : Store) (a : Nat) (o : Obj) : Store := st.set a o

/-- `obj.get(k)` / `obj[k]`: first binding of the key. -/
def oget (o : Obj) (k : String) : Option HVal :=
  (o.find? fun p => p.1 = k).map (·.2)

/-- `obj[k] = v`: replace the value at the key's existing position (Python
dicts keep insertion order), append the binding when the key is new. -/
def oset (o : Obj) (k : String) (v : HVal) : Obj :=
  match o with
  | [] => [(k, v)]
  | p :: rest => if p.1 = k then (k, v) :: rest else p :: oset rest k v

/-- `int(x * 0.67)` on a catalog value.  For the integer resource parameters
the catalog carries (and any integer of magnitude below 10^14), the float
product `x * 0.67` truncates to the same integer as the exact rational
`x * 67 / 100`, so the float step is embedded as `Int.tdiv (x * 67) 100`
(`Int.tdiv` truncates toward zero, as Python's `int()` does).  A Python bool
multiplies as 0 or 1; any other value raises `TypeError`, embedded as
`Option.none`. -/
def trunc_067 : HVal → Option Int
  | .int n => some (Int.tdiv (n * 67) 100)
  | .bool b => some (Int.tdiv ((if b then 1 else 0) * 67) 100)
  | _ => Option.none

/-- Lines 749-752: `if 'max_context' in device_model_spec:` then
`device_model_spec['max_context'] = int(original * 0.67)`;
`Option.none` when the multiplication raises `TypeError`. -/
def step_max_context (dms : Obj) : Option Obj :=
  match oget dms "max_context" with
  | Option.none => some dms
  | some v => (trunc_067 v).map fun n => oset dms "max_context" (.int n)

/-- Lines 754-757: `device_model_spec['max_num_seqs'] =
max(1, int(original * 0.67))` when the key is present. -/
def step_max_num_seqs (dms : Obj) : Option Obj :=
  match oget dms "max_num_seqs" with
  | Option.none => some dms
  | some v => (trunc_067 v).map fun n => oset dms "max_num_seqs" (.int (max 1 n))

/-- `conservative_spec.get('device_model_spec', {}).copy()`: the association
list the fresh copy will hold — the referenced object's bindings, `[]` when
the key is absent (a fresh empty dict), `Option.none` when the value is not
a dict (`.copy()` on it raises `AttributeError`). -/
def dms_bindings (st : Store) (specObj : Obj) : Option Obj :=
  match oget specObj "device_model_spec" with
  | Option.none => some []
  | some (.ref a) => some (readObj st a)
  | some _ => Option.none

/-- `apply_conservative_params` (src/tt-jukebox.py:741-762) over the object
store.  Returns the extended store and the address of the new record, or
`Option.none` when the Python code would raise.  `conservative_spec =
spec.copy()` allocates the record copy at address `st.length`; the fresh
copy of the resource map is allocated at `st.length + 1`; the source mutates
that fresh copy in place before assigning it, which is observationally the
same as allocating it with its final bindings, as done here; the two final
assignments write `device_model_spec` (the reference to the fresh map) and
`_is_experimental = True` onto the record copy. -/
def apply_conservative_params (st : Store) (spec : Nat) : Option (Store × Nat) :=
  match dms_bindings (st ++ [readObj st spec])
      (readObj (st ++ [readObj st spec]) st.length) with
  | Option.none => Option.none
  | some dms0 =>
    match step_max_context dms0 with
    | Option.none => Option.none
    | some dms1 =>
      match step_max_num_seqs dms1 with
      | Option.none => Option.none
      | some dms2 =>
        some (writeObj (st ++ [readObj st spec] ++ [dms2]) st.length
          (oset (oset (readObj (st ++ [readObj st spec] ++ [dms2]) st.length)
              "device_model_spec" (.ref (st ++ [readObj st spec]).length))
            "_is_experimental" (.bool true)),
          st.length)

/-! ## Command synthesizer (src/tt-jukebox.py:1143-1225)

`format_cli_command` assembles the launch parameters — environment-variable
exports and the vLLM flag list — and then renders them into the copy-paste
command strings by plain concatenation.  The embedding carries the
parameters and the two assembled parts (`env_vars`, `vllm_flags`) the
rendering interpolates. -/

/-- Python `str(n)` for an int. -/
def intToStr (n : Int) : Str := (toString n).toList

/-- The parameters and assembled parts of the `run` command. -/
structure CliCommand where
  device_type : Str
  max_context : Int
  max_num_seqs : Int
  block_size : Int
  tensor_parallel : Option Int
  env_vars : Str
  vllm_flags : List Str
deriving DecidableEq, Repr

/-- `format_cli_command` (src/tt-jukebox.py:1143-1225).  `model_path` is
`model_info['path']`.  `spec.tensor_parallel_size` embeds
`spec.get('vllm_args', {}).get('tensor_parallel_size')`. -/
def format_cli_command (spec : ModelSpec) (model_path : Str) : CliCommand :=
  let device_type := spec.device_type.getD (S "N150")
  let dms := spec.device_model_spec.getD (none, none, none)
  let max_context := dms.1.getD 65536
  let max_num_seqs := dms.2.1.getD 16
  let block_size := dms.2.2.getD 64
  let tensor_parallel := spec.tensor_parallel_size
  let env_vars₀ := S "export TT_METAL_HOME=~/tt-metal && export MESH_DEVICE="
    ++ device_type ++ S " && export PYTHONPATH=$TT_METAL_HOME:$PYTHONPATH"
  let env_vars :=
    if strContains (pyUpper device_type) (S "P") then
      env_vars₀ ++ S " && export TT_METAL_ARCH_NAME=blackhole"
    else env_vars₀
  let flags₀ : List Str :=
    [S "--model " ++ model_path,
     S "--host 0.0.0.0",
     S "--port 8000",
     S "--max-model-len " ++ intToStr max_context,
     S "--max-num-seqs " ++ intToStr max_num_seqs,
     S "--block-size " ++ intToStr block_size]
  let vllm_flags :=
    match tensor_parallel with
    | some tp =>
      if tp ≠ 0 ∧ tp > 1 then
        flags₀ ++ [S "--tensor-parallel-size " ++ intToStr tp]
      else flags₀
    | Option.none => flags₀
  { device_type := device_type, max_context := max_context,
    max_num_seqs := max_num_seqs, block_size := block_size,
    tensor_parallel := tensor_parallel, env_vars := env_vars,
    vllm_flags := vllm_flags }

/-- The claim's validated-membership predicate: the record has a
`device_type` and case-insensitive substring containment holds in at least
one direction between it and the hardware string. -/
def hardware_validated (hardware : Str) (s : ModelSpec) : Bool :=
  match s.device_type with
  | some dt => exact_device_match (pyUpper hardware) (pyUpper dt)
  | none => false

/-- Signal 1 of the claim: the record's declared `arch_name` equals the
hardware's architecture family under the fixed device-to-family mapping. -/
def archFamilySignal (hardware : Str) (s : ModelSpec) : Bool :=
  decide (find_user_arch_family (pyUpper hardware) = some s.arch_name)

/-- Signal 2 of the claim: the hardware's magnitude under the fixed size
table (unknown device = 0) strictly exceeds the record's device magnitude,
and `param_count ≤ 8` (missing `param_count` treated as 999). -/
def sizeSignal (hardware dt : Str) (s : ModelSpec) : Bool :=
  decide (device_number (pyUpper dt) < device_number (pyUpper hardware) ∧
    s.param_count.getD 999 ≤ 8)

/-- Signal 3 of the claim: the record's status is `EXPERIMENTAL`. -/
def statusSignal (s : ModelSpec) : Bool :=
  decide (pyUpper (s.status.getD (S "UNKNOWN")) = S "EXPERIMENTAL")

/-- The claim's annotation: the reason fragments of the satisfied signals,
in signal order, joined with ", ". -/
def claimed_compatibility_reason (hardware dt : Str) (s : ModelSpec) : Str :=
  (S ", ").intercalate
    ((if archFamilySignal hardware s then
        [S "same architecture (" ++ s.arch_name ++ S ")"] else []) ++
     (if sizeSignal hardware dt s then [S "smaller model on larger device"] else []) ++
     (if statusSignal s then [S "officially marked experimental"] else []))

/-- The spec's worked example for the experimental partition: a `P100`
record with 3 billion parameters, seen from `N300` hardware. -/
def c2spec : ModelSpec :=
  { device_type := some (S "P100"), status := none, arch_name := S "blackhole",
    param_count := some 3, model_name := [], model_id := [],
    tt_metal_commit := [], vllm_commit := [], device_model_spec := none,
    tensor_parallel_size := none }

/-- The spec's worked example for the conservative derivation:
`{max_context: 100, max_num_seqs: 3}` (plus a `block_size` bystander). -/
def conservStore : Store :=
  [[("device_model_spec", HVal.ref 1)],
   [("max_context", HVal.int 100), ("max_num_seqs", HVal.int 3),
    ("block_size", HVal.int 64)]]

/-- A record whose `max_context` holds a string, the failing input for the
fail-closed requirement. -/
def badConservStore : Store :=
  [[("device_model_spec", HVal.ref 1)],
   [("max_context", HVal.str (S "many"))]]

/-- A record with a pre-existing `_is_experimental` flag and a resource map
holding only `block_size`, to exercise the frame. -/
def frameStore : Store :=
  [[("device_model_spec", HVal.ref 1), ("model_name", HVal.str (S "m")),
    ("_is_experimental", HVal.bool false)],
   [("block_size", HVal.int 64)]]

/-- The store `apply_conservative_params` returns on `frameStore`. -/
def frameStoreResult : Store :=
  [[("device_model_spec", HVal.ref 1), ("model_name", HVal.str (S "m")),
    ("_is_experimental", HVal.bool false)],
   [("block_size", HVal.int 64)],
   [("device_model_spec", HVal.ref 3), ("model_name", HVal.str (S "m")),
    ("_is_experimental", HVal.bool true)],
   [("block_size", HVal.int 64)]]

/-! ## Properties and claim theorems -/

/-- `strContains` holds exactly when the needle is an infix of the haystack. -/
theorem strContains_eq_infix_decision (hay needle : Str) :
    strContains hay needle = true ↔ needle <:+: hay := by
  induction hay with
  | nil =>
    simp [strContains, List.isEmpty_iff, List.infix_nil]
  | cons a t ih =>
    simp [strContains, List.isPrefixOf_iff_prefix, ih, List.infix_cons_iff]

example : pySplit '-' (S "llama-3.1-8b") = [S "llama", S "3.1", S "8b"] := by decide
example : pySplit '-' (S "") = [S ""] := by decide
example : strContains (S "Llama-3.1") (S "ama") = true := by decide
example : strContains (S "abc") (S "") = true := by decide
example : strContains (S "abc") (S "abcd") = false := by decide

example :
    commits_match (S "abc1234567") (S "abc1299999") = false := by decide
example :
    commits_match (S "abc1234567") (S "abc1234999") = true := by decide
example : commits_match (S "None") (S "Noneabc1") = true := by decide

/-! ## Claim C4 — commit comparison -/

/-- C4 counterexample: the claim says a placeholder identifier
("None"/"null") never matches *on either side*, but the code checks the
placeholder only on the required side: a current commit that is literally
"None" matches a required commit beginning with "None". -/
theorem C4_counterexample : commits_match (S "None") (S "None1234") = true := by
  decide

/-- C4 (amended): two commits match iff both are non-empty, the required one
is not a placeholder ("None"/"null" — the placeholder test applies only to
the required side), and the prefixes of length
`min(len(current), len(required), 7)` are equal; an empty identifier never
matches on either side; the spec's worked examples hold. -/
theorem C4_commits_match_amended :
    ∀ current required : Str,
      (commits_match current required = true ↔
        (current ≠ [] ∧ required ≠ [] ∧ required ≠ S "None" ∧ required ≠ S "null" ∧
          current.take (min (min current.length required.length) 7) =
            required.take (min (min current.length required.length) 7))) ∧
      commits_match [] required = false ∧
      commits_match current [] = false ∧
      commits_match current (S "None") = false ∧
      commits_match current (S "null") = false ∧
      commits_match (S "abc1234567") (S "abc1299999") = false ∧
      commits_match (S "abc1234567") (S "abc1234999") = true := by
  intro current required
  refine ⟨?_, by simp [commits_match], by simp [commits_match],
    by simp [commits_match, S], by simp [commits_match, S], by decide, by decide⟩
  unfold commits_match
  split
  · simp only [Bool.false_eq_true, false_iff]
    intro h
    tauto
  · next h =>
    push_neg at h
    simp only [decide_eq_true_eq]
    tauto

/-! ## Claim C5 — environment match -/

/-- C5: with either toolchain status absent, `check_environment_match`
returns the fully non-compatible result (flags false, no diffs,
`needs_setup` true) without comparing; `needs_setup` is false exactly when
both requirements are explicitly present, both current commits are present,
and both comparisons match; a toolchain with no requirement in the record
never gets a diff string. -/
theorem C5_check_environment_match :
    ∀ (spec : ModelSpec) (metal_info vllm_info : Option Str),
      ((metal_info = none ∨ vllm_info = none) →
        check_environment_match spec metal_info vllm_info =
          { metal_compatible := false, vllm_compatible := false,
            metal_diff := none, vllm_diff := none, needs_setup := true }) ∧
      ((check_environment_match spec metal_info vllm_info).needs_setup = false ↔
        ∃ cm vm, metal_info = some cm ∧ vllm_info = some vm ∧
          spec.tt_metal_commit ≠ [] ∧ cm ≠ [] ∧
          commits_match cm spec.tt_metal_commit = true ∧
          spec.vllm_commit ≠ [] ∧ vm ≠ [] ∧
          commits_match vm spec.vllm_commit = true) ∧
      (spec.tt_metal_commit = [] →
        (check_environment_match spec metal_info vllm_info).metal_diff = none) ∧
      (spec.vllm_commit = [] →
        (check_environment_match spec metal_info vllm_info).vllm_diff = none) := by
  intro spec metal_info vllm_info
  cases metal_info with
  | none => simp [check_environment_match]
  | some cm =>
    cases vllm_info with
    | none => simp [check_environment_match]
    | some vm =>
      refine ⟨by simp, ?_, ?_, ?_⟩
      · simp only [check_environment_match, Option.some.injEq]
        repeat' split
        all_goals simp_all
      · intro h
        simp only [check_environment_match, h]
        repeat' split
        all_goals simp_all
      · intro h
        simp only [check_environment_match, h]
        repeat' split
        all_goals simp_all

/-! ## Claim C1 — validated partition -/

/-- The validated list built by the record loop is the input filtered by the
validated predicate, independent of the experimental options. -/
theorem filter_by_hardware_go_fst (hu : Str) (fam : Option Str) (inc : Bool)
    (specs : List ModelSpec) :
    (filter_by_hardware_go hu fam inc specs).1 =
      specs.filter fun s =>
        match s.device_type with
        | some dt => exact_device_match hu (pyUpper dt)
        | none => false := by
  induction specs with
  | nil => rfl
  | cons spec rest ih =>
    simp only [filter_by_hardware_go, List.filter_cons]
    cases h : spec.device_type with
    | none => simpa [h] using ih
    | some dt =>
      by_cases he : exact_device_match hu (pyUpper dt) = true
      · simp [h, he, ih]
      · simp only [Bool.not_eq_true] at he
        cases inc with
        | true =>
          cases hv : experimental_eval hu fam (pyUpper dt) spec <;>
            simp [h, he, hv, ih]
        | false => simp [h, he, ih]

/-- Every member of the experimental list comes from an input record whose
`device_type` is present but not an exact match, carrying the reason
`experimental_eval` computed — and conversely, when experimental records are
requested. -/
theorem filter_by_hardware_go_snd (hu : Str) (fam : Option Str) (inc : Bool)
    (specs : List ModelSpec) (p : ModelSpec × Str) :
    p ∈ (filter_by_hardware_go hu fam inc specs).2 ↔
      (inc = true ∧ p.1 ∈ specs ∧ ∃ dt, p.1.device_type = some dt ∧
        exact_device_match hu (pyUpper dt) = false ∧
        experimental_eval hu fam (pyUpper dt) p.1 = some p.2) := by
  cases inc with
  | false =>
    have hempty : ∀ l : List ModelSpec,
        (filter_by_hardware_go hu fam false l).2 = [] := by
      intro l
      induction l with
      | nil => rfl
      | cons spec rest ih =>
        simp only [filter_by_hardware_go]
        cases h : spec.device_type with
        | none => simp [ih]
        | some dt =>
          by_cases he : exact_device_match hu (pyUpper dt) = true <;>
            simp [he, ih]
    simp [hempty]
  | true =>
    induction specs with
    | nil => simp [filter_by_hardware_go]
    | cons spec rest ih =>
      simp only [filter_by_hardware_go]
      cases h : spec.device_type with
      | none =>
        simp only [List.mem_cons, ih, true_and]
        constructor
        · tauto
        · rintro ⟨hmem | hmem, dt, hdt, hrest⟩
          · exact absurd hdt (by simp [hmem, h])
          · exact ⟨hmem, dt, hdt, hrest⟩
      | some dt =>
        by_cases he : exact_device_match hu (pyUpper dt) = true
        · simp only [he, if_true, ih, List.mem_cons, true_and]
          constructor
          · tauto
          · rintro ⟨hmem | hmem, dt', hdt', hne, hrest⟩
            · rw [hmem, h] at hdt'
              cases hdt'
              simp [he] at hne
            · exact ⟨hmem, dt', hdt', hne, hrest⟩
        · simp only [Bool.not_eq_true] at he
          cases hv : experimental_eval hu fam (pyUpper dt) spec with
          | none =>
            simp only [he, Bool.false_eq_true, if_false, if_true, hv, ih,
              List.mem_cons, true_and]
            constructor
            · tauto
            · rintro ⟨hmem | hmem, dt', hdt', hne, hrest⟩
              · rw [hmem, h] at hdt'
                cases hdt'
                rw [hmem, hv] at hrest
                cases hrest
              · exact ⟨hmem, dt', hdt', hne, hrest⟩
          | some reason =>
            simp only [he, Bool.false_eq_true, if_false, if_true, hv, ih,
              List.mem_cons, true_and]
            constructor
            · rintro (hp | ⟨hmem, dt', hdt', hne, hrest⟩)
              · refine ⟨Or.inl (by simp [hp]), dt, by simp [hp, h], he, ?_⟩
                simp [hp, hv]
              · exact ⟨Or.inr hmem, dt', hdt', hne, hrest⟩
            · rintro ⟨hmem | hmem, dt', hdt', hne, hrest⟩
              · left
                rw [hmem, h] at hdt'
                cases hdt'
                rw [hmem, hv] at hrest
                cases hrest
                rw [Prod.ext_iff]
                exact ⟨hmem, rfl⟩
              · exact Or.inr ⟨hmem, dt', hdt', hne, hrest⟩

/-- C1: `filter_by_hardware` returns as validated exactly the records with a
`device_type` matching the hardware by bidirectional case-insensitive
containment (status plays no part; records without `device_type` are
dropped); the validated list does not depend on `includeExperimental`; and
no record appears in both returned lists. -/
theorem C1_filter_validated :
    ∀ (specs : List ModelSpec) (hardware : Str) (include_experimental : Bool),
      (filter_by_hardware specs hardware include_experimental).1 =
        specs.filter (hardware_validated hardware) ∧
      (filter_by_hardware specs hardware false).1 =
        (filter_by_hardware specs hardware true).1 ∧
      (∀ v ∈ (filter_by_hardware specs hardware include_experimental).1,
        ∀ p ∈ (filter_by_hardware specs hardware include_experimental).2,
          p.1 ≠ v) := by
  intro specs hardware inc
  have hfst : ∀ b : Bool, (filter_by_hardware specs hardware b).1 =
      specs.filter (hardware_validated hardware) := by
    intro b
    unfold filter_by_hardware
    rw [filter_by_hardware_go_fst]
    apply List.filter_congr
    intro s _
    unfold hardware_validated
    rfl
  refine ⟨hfst inc, (hfst false).trans (hfst true).symm, ?_⟩
  intro v hv p hp heq
  rw [hfst inc, List.mem_filter] at hv
  rw [show (filter_by_hardware specs hardware inc).2 =
    (filter_by_hardware_go (pyUpper hardware)
      (find_user_arch_family (pyUpper hardware)) inc specs).2 from rfl,
    filter_by_hardware_go_snd] at hp
  obtain ⟨-, -, dt, hdt, hne, -⟩ := hp
  rw [heq] at hdt
  have := hv.2
  simp only [hardware_validated, hdt] at this
  rw [hne] at this
  cases this

/-! ## Claim C2 — experimental partition -/

/-- A family the lookup returns is one of the two table keys. -/
theorem find_user_arch_family_ne_nil (hw : Str) (f : Str)
    (h : find_user_arch_family hw = some f) : f ≠ [] := by
  unfold find_user_arch_family at h
  rw [Option.map_eq_some'] at h
  obtain ⟨p, hp, rfl⟩ := h
  have hmem := List.mem_of_find?_eq_some hp
  simp only [arch_families, List.mem_cons, List.not_mem_nil, or_false] at hmem
  rcases hmem with h | h <;> subst h <;> decide

/-- The code's experimental evaluation agrees with the claim's three
signals and produces exactly the claim's joined reason string. -/
theorem experimental_eval_spec (hardware dt : Str) (s : ModelSpec) :
    experimental_eval (pyUpper hardware) (find_user_arch_family (pyUpper hardware))
        (pyUpper dt) s =
      if archFamilySignal hardware s || sizeSignal hardware dt s || statusSignal s
      then some (claimed_compatibility_reason hardware dt s)
      else none := by
  have harch : (s.arch_name ≠ [] ∧
      find_user_arch_family (pyUpper hardware) = some s.arch_name) ↔
      archFamilySignal hardware s = true := by
    unfold archFamilySignal
    simp only [decide_eq_true_eq]
    refine ⟨fun h => h.2, fun h => ⟨find_user_arch_family_ne_nil _ _ h, h⟩⟩
  simp only [experimental_eval, harch, gt_iff_lt]
  by_cases h1 : archFamilySignal hardware s = true <;>
    by_cases h2 : sizeSignal hardware dt s = true <;>
    by_cases h3 : statusSignal s = true <;>
    simp_all [claimed_compatibility_reason, sizeSignal, statusSignal,
      List.intercalate]
  try rw [if_neg (by rintro ⟨hc1, hc2⟩; exact absurd hc2 (not_le.mpr (h2 hc1)))]

/-- C2: a record with a present, non-matching `device_type` appears in the
experimental partition (with `includeExperimental` on) exactly when one of
the three compatibility signals holds, and its annotation is the signals'
reason fragments joined with ", ". -/
theorem C2_filter_experimental :
    ∀ (specs : List ModelSpec) (hardware : Str) (s : ModelSpec) (dt : Str),
      s.device_type = some dt →
      exact_device_match (pyUpper hardware) (pyUpper dt) = false →
      ((∃ r, (s, r) ∈ (filter_by_hardware specs hardware true).2) ↔
        (s ∈ specs ∧ (archFamilySignal hardware s = true ∨
          sizeSignal hardware dt s = true ∨ statusSignal s = true))) ∧
      (∀ r, (s, r) ∈ (filter_by_hardware specs hardware true).2 →
        r = claimed_compatibility_reason hardware dt s) := by
  intro specs hardware s dt hdt hne
  have key : ∀ r, (s, r) ∈ (filter_by_hardware specs hardware true).2 ↔
      (s ∈ specs ∧
        (archFamilySignal hardware s || sizeSignal hardware dt s ||
          statusSignal s) = true ∧
        r = claimed_compatibility_reason hardware dt s) := by
    intro r
    rw [show (filter_by_hardware specs hardware true).2 =
      (filter_by_hardware_go (pyUpper hardware)
        (find_user_arch_family (pyUpper hardware)) true specs).2 from rfl,
      filter_by_hardware_go_snd]
    dsimp only
    constructor
    · rintro ⟨-, hmem, dt', hdt', -, heval⟩
      rw [hdt] at hdt'
      cases hdt'
      rw [experimental_eval_spec] at heval
      split at heval
      · next hcond =>
        cases heval
        exact ⟨hmem, hcond, rfl⟩
      · cases heval
    · rintro ⟨hmem, hcond, rfl⟩
      refine ⟨rfl, hmem, dt, hdt, hne, ?_⟩
      rw [experimental_eval_spec, if_pos hcond]
  refine ⟨⟨?_, ?_⟩, ?_⟩
  · rintro ⟨r, hr⟩
    rw [key] at hr
    exact ⟨hr.1, by simpa [Bool.or_eq_true, or_assoc] using hr.2.1⟩
  · rintro ⟨hmem, hsig⟩
    exact ⟨_, (key _).mpr ⟨hmem, by simpa [Bool.or_eq_true, or_assoc] using hsig, rfl⟩⟩
  · intro r hr
    exact ((key r).mp hr).2.2

/-- C2 witness: for `N300` hardware the `P100` record of `c2spec` lands in
the experimental partition with the size-heuristic reason. -/
theorem C2_filter_experimental_witness :
    (c2spec, S "smaller model on larger device") ∈
      (filter_by_hardware [c2spec] (S "N300") true).2 := by
  have h := C2_filter_experimental [c2spec] (S "N300") c2spec (S "P100") rfl
    (by decide)
  obtain ⟨r, hr⟩ := h.1.mpr ⟨by simp, Or.inr (Or.inl (by decide))⟩
  have he := h.2 r hr
  rw [he] at hr
  have hc : claimed_compatibility_reason (S "N300") (S "P100") c2spec =
      S "smaller model on larger device" := by decide
  rw [hc] at hr
  exact hr

/-! ## Claim C3 — name matching -/

/-- Inserting keeps the same elements. -/
theorem insert_score_desc_perm (x : ModelSpec × Nat) (l : List (ModelSpec × Nat)) :
    (insert_score_desc x l).Perm (x :: l) := by
  induction l with
  | nil => rfl
  | cons y ys ih =>
    unfold insert_score_desc
    split
    · rfl
    · exact (ih.cons y).trans (List.Perm.swap x y ys)

/-- The stable sort is a permutation of its input. -/
theorem sort_by_score_desc_perm (l : List (ModelSpec × Nat)) :
    (sort_by_score_desc l).Perm l := by
  induction l with
  | nil => rfl
  | cons x xs ih =>
    exact (insert_score_desc_perm x (sort_by_score_desc xs)).trans (ih.cons x)

/-- Inserting preserves descending order by score. -/
theorem insert_score_desc_pairwise (x : ModelSpec × Nat)
    (l : List (ModelSpec × Nat)) (h : l.Pairwise fun a b => b.2 ≤ a.2) :
    (insert_score_desc x l).Pairwise fun a b => b.2 ≤ a.2 := by
  induction l with
  | nil => simp [insert_score_desc]
  | cons y ys ih =>
    rw [List.pairwise_cons] at h
    unfold insert_score_desc
    split
    · next hyx =>
      refine List.Pairwise.cons ?_ (List.Pairwise.cons h.1 h.2)
      intro b hb
      rcases List.mem_cons.mp hb with rfl | hb
      · exact hyx
      · exact le_trans (h.1 b hb) hyx
    · next hyx =>
      push_neg at hyx
      refine List.Pairwise.cons ?_ (ih h.2)
      intro b hb
      have hb2 := (insert_score_desc_perm x ys).mem_iff.mp hb
      rcases List.mem_cons.mp hb2 with rfl | hb2
      · exact le_of_lt hyx
      · exact h.1 b hb2

/-- The sort output is descending by score. -/
theorem sort_by_score_desc_pairwise (l : List (ModelSpec × Nat)) :
    (sort_by_score_desc l).Pairwise fun a b => b.2 ≤ a.2 := by
  induction l with
  | nil => simp [sort_by_score_desc]
  | cons x xs ih => exact insert_score_desc_pairwise x _ ih

/-- Insertion goes past only strictly larger scores, so the sublist of any
fixed score keeps its order. -/
theorem insert_score_desc_filter (x : ModelSpec × Nat)
    (l : List (ModelSpec × Nat)) (k : Nat) :
    (insert_score_desc x l).filter (fun y => y.2 == k) =
      if x.2 = k then x :: l.filter (fun y => y.2 == k)
      else l.filter (fun y => y.2 == k) := by
  induction l with
  | nil =>
    by_cases hx : x.2 = k <;> simp [insert_score_desc, hx]
  | cons y ys ih =>
    unfold insert_score_desc
    split
    · next hyx =>
      by_cases hx : x.2 = k <;> simp [hx, List.filter_cons]
    · next hyx =>
      push_neg at hyx
      by_cases hx : x.2 = k
      · have hy : ¬(y.2 = k) := by omega
        simp [List.filter_cons, hx, hy, ih]
      · by_cases hy : y.2 = k <;> simp [List.filter_cons, hx, hy, ih]

/-- Stability: filtering the sorted list at any one score equals filtering
the input, so equal scores keep their input order. -/
theorem sort_by_score_desc_filter (l : List (ModelSpec × Nat)) (k : Nat) :
    (sort_by_score_desc l).filter (fun y => y.2 == k) =
      l.filter (fun y => y.2 == k) := by
  induction l with
  | nil => rfl
  | cons x xs ih =>
    rw [sort_by_score_desc, insert_score_desc_filter]
    by_cases hx : x.2 = k <;> simp [List.filter_cons, hx, ih]

/-- C3: `match_model_name` scores every matched record by the highest tier
that applies to the lowercased query (100 exact on `model_name`, 80
substring of `model_name`/`model_id`, 60 prefix of a hyphen token of
`model_name`), omits records matching no tier, and returns the matched
records sorted descending by score with ties in catalog order. -/
theorem C3_match_model_name :
    ∀ (specs : List ModelSpec) (model_query : Str),
      (∀ s sc, (s, sc) ∈ match_model_name specs model_query →
        s ∈ specs ∧ model_name_score (pyLower model_query) s = some sc) ∧
      (∀ s ∈ specs, ∀ sc, model_name_score (pyLower model_query) s = some sc →
        (s, sc) ∈ match_model_name specs model_query) ∧
      (match_model_name specs model_query).Pairwise (fun a b => b.2 ≤ a.2) ∧
      (∀ k, (match_model_name specs model_query).filter (fun y => y.2 == k) =
        (specs.filterMap fun s =>
          (model_name_score (pyLower model_query) s).map (s, ·)).filter
            (fun y => y.2 == k)) := by
  intro specs q
  have hperm : (match_model_name specs q).Perm
      (specs.filterMap fun s => (model_name_score (pyLower q) s).map (s, ·)) :=
    sort_by_score_desc_perm _
  refine ⟨?_, ?_, sort_by_score_desc_pairwise _, fun k => sort_by_score_desc_filter _ k⟩
  · intro s sc hmem
    have := hperm.mem_iff.mp hmem
    rw [List.mem_filterMap] at this
    obtain ⟨t, htmem, hts⟩ := this
    rw [Option.map_eq_some'] at hts
    obtain ⟨sc', hsc', heq⟩ := hts
    cases heq
    exact ⟨htmem, hsc'⟩
  · intro s hs sc hsc
    refine hperm.mem_iff.mpr ?_
    rw [List.mem_filterMap]
    exact ⟨s, hs, by rw [hsc]; rfl⟩

/-! ## Claim C7 — task matching -/

/-- C7: `match_task` looks the lowercased task up in the fixed keyword
table (falling back to the task string itself as sole keyword), keeps
exactly the records one of whose keywords is a substring of the lowercased
`model_name` or `model_id`, gives every match score 70, and preserves
catalog order with no further ranking. -/
theorem C7_match_task :
    ∀ (specs : List ModelSpec) (task : Str),
      (∀ s sc, (s, sc) ∈ match_task specs task → sc = 70) ∧
      (∀ s, (∃ sc, (s, sc) ∈ match_task specs task) ↔
        (s ∈ specs ∧ ∃ kw ∈ task_keywords (pyLower task),
          (strContains (pyLower s.model_name) kw ||
            strContains (pyLower s.model_id) kw) = true)) ∧
      ((match_task specs task).map Prod.fst).Sublist specs ∧
      ((task_mappings.find? fun p => decide (p.1 = pyLower task)) = none →
        task_keywords (pyLower task) = [pyLower task]) := by
  intro specs task
  refine ⟨?_, ?_, ?_, ?_⟩
  · intro s sc hmem
    rw [match_task, List.mem_filterMap] at hmem
    obtain ⟨t, -, ht⟩ := hmem
    dsimp only at ht
    split at ht
    · cases ht
      rfl
    · cases ht
  · intro s
    constructor
    · rintro ⟨sc, hmem⟩
      rw [match_task, List.mem_filterMap] at hmem
      obtain ⟨t, htmem, ht⟩ := hmem
      dsimp only at ht
      split at ht
      · next hcond =>
        cases ht
        rw [List.any_eq_true] at hcond
        obtain ⟨kw, hkw, hc⟩ := hcond
        exact ⟨htmem, kw, hkw, hc⟩
      · cases ht
    · rintro ⟨hs, kw, hkw, hc⟩
      have hcond : ((task_keywords (pyLower task)).any fun kw =>
          strContains (pyLower s.model_name) kw ||
            strContains (pyLower s.model_id) kw) = true := by
        rw [List.any_eq_true]
        exact ⟨kw, hkw, hc⟩
      refine ⟨70, ?_⟩
      rw [match_task, List.mem_filterMap]
      refine ⟨s, hs, ?_⟩
      dsimp only
      rw [if_pos hcond]
  · rw [match_task]
    induction specs with
    | nil => simp
    | cons spec rest ih =>
      rw [List.filterMap_cons]
      split
      · exact ih.cons spec
      · next b heq =>
        dsimp only at heq
        split at heq
        · cases heq
          simpa using ih
        · cases heq
  · intro h
    rw [task_keywords, h]
    rfl

/-! ## Claim C9 — command synthesis -/

/-- A string that `--tensor-parallel-size` is a prefix of starts with
`--t`. -/
theorem tps_prefix_take3 (f : Str)
    (h : (S "--tensor-parallel-size").isPrefixOf f = true) :
    f.take 3 = S "--t" := by
  rw [ List.isPrefixOf_iff_prefix, List.prefix_iff_eq_take] at h
  calc f.take 3
      = (f.take (S "--tensor-parallel-size").length).take 3 := by
        rw [List.take_take]
        congr 1
    _ = (S "--tensor-parallel-size").take 3 := by rw [← h]
    _ = S "--t" := by decide

/-- A prefix no longer than the left part of an append is a prefix of that
left part. -/
theorem prefix_append_iff_of_le (p a z : Str) (h : p.length ≤ a.length) :
    p <+: a ++ z ↔ p <+: a := by
  constructor
  · intro hp
    rw [List.prefix_iff_eq_take] at hp ⊢
    rwa [List.take_append_of_le_length h] at hp
  · intro hp
    exact hp.trans (List.prefix_append a z)

/-- A suffix no longer than the right part of an append is a suffix of that
right part. -/
theorem suffix_append_iff_of_le (s x b : Str) (h : s.length ≤ b.length) :
    s <:+ x ++ b ↔ s <:+ b := by
  constructor
  · intro hs
    have h1 := List.reverse_prefix.mpr hs
    rw [List.reverse_append] at h1
    rw [prefix_append_iff_of_le s.reverse b.reverse x.reverse
      (by simpa using h)] at h1
    exact List.reverse_prefix.mp h1
  · rintro ⟨t, ht⟩
    exact ⟨x ++ t, by rw [← ht, List.append_assoc]⟩

/-- C9: with `device_model_spec` absent the launch parameters default to
65536/16/64; the `--tensor-parallel-size` flag appears in the flag list
exactly when the record carries a `tensor_parallel_size` greater than 1;
and the blackhole architecture export is appended to the environment
variables exactly when the (uppercased) device identifier contains `P`. -/
theorem C9_format_cli_command :
    ∀ (spec : ModelSpec) (model_path : Str),
      (spec.device_model_spec = none →
        (format_cli_command spec model_path).max_context = 65536 ∧
        (format_cli_command spec model_path).max_num_seqs = 16 ∧
        (format_cli_command spec model_path).block_size = 64) ∧
      ((∃ f ∈ (format_cli_command spec model_path).vllm_flags,
          (S "--tensor-parallel-size").isPrefixOf f = true) ↔
        (∃ tp, spec.tensor_parallel_size = some tp ∧ 1 < tp)) ∧
      (S " && export TT_METAL_ARCH_NAME=blackhole" <:+
          (format_cli_command spec model_path).env_vars ↔
        strContains (pyUpper (spec.device_type.getD (S "N150"))) (S "P") = true) := by
  intro spec model_path
  refine ⟨?_, ?_, ?_⟩
  · intro h
    simp [format_cli_command, h]
  · constructor
    · rintro ⟨f, hf, hpre⟩
      have h3 := tps_prefix_take3 f hpre
      rcases htp : spec.tensor_parallel_size with _ | tp
      · simp only [format_cli_command, htp, List.mem_cons,
          List.not_mem_nil, or_false] at hf
        rcases hf with rfl | rfl | rfl | rfl | rfl | rfl <;>
          first
          | (rw [List.take_append_of_le_length (by decide)] at h3
             exact absurd h3 (by decide))
          | exact absurd h3 (by decide)
      · by_cases hc : tp ≠ 0 ∧ 1 < tp
        · exact ⟨tp, rfl, hc.2⟩
        · simp only [format_cli_command, htp, hc, if_false, List.mem_cons,
            List.not_mem_nil, or_false] at hf
          rcases hf with rfl | rfl | rfl | rfl | rfl | rfl <;>
            first
            | (rw [List.take_append_of_le_length (by decide)] at h3
               exact absurd h3 (by decide))
            | exact absurd h3 (by decide)
    · rintro ⟨tp, htp, h1⟩
      have hc : tp ≠ 0 ∧ 1 < tp := ⟨by omega, h1⟩
      refine ⟨S "--tensor-parallel-size " ++ intToStr tp, ?_, ?_⟩
      · simp [format_cli_command, htp, hc]
      · rw [ List.isPrefixOf_iff_prefix,
          show S "--tensor-parallel-size " ++ intToStr tp =
            S "--tensor-parallel-size" ++ (S " " ++ intToStr tp) from by
              rw [← List.append_assoc]
              rfl]
        exact List.prefix_append _ _
  · by_cases hc : strContains (pyUpper (spec.device_type.getD (S "N150")))
        (S "P") = true
    · simp only [format_cli_command, hc, if_true, hc, iff_true]
      exact List.suffix_append _ _
    · simp only [Bool.not_eq_true] at hc
      simp only [format_cli_command, hc, Bool.false_eq_true, if_false, iff_false]
      intro hs
      rw [suffix_append_iff_of_le (S " && export TT_METAL_ARCH_NAME=blackhole")
        (S "export TT_METAL_HOME=~/tt-metal && export MESH_DEVICE=" ++
          spec.device_type.getD (S "N150"))
        (S " && export PYTHONPATH=$TT_METAL_HOME:$PYTHONPATH")
        (by decide)] at hs
      exact absurd hs (by decide)

/-! ## Claims C6, C8, C10 — conservative derivation over the object store -/

/-- Reading back the key just set. -/
theorem oget_oset_same (o : Obj) (k : String) (v : HVal) :
    oget (oset o k v) k = some v := by
  induction o with
  | nil => simp [oget, oset]
  | cons p rest ih =>
    by_cases hp : p.1 = k
    · simp [oset, oget, hp]
    · simp only [oset, hp, if_false]
      rw [show oget (p :: oset rest k v) k = oget (oset rest k v) k from by
        simp [oget, List.find?, hp]]
      exact ih

/-- Setting one key leaves every other key's value unchanged. -/
theorem oget_oset_other (o : Obj) (k : String) (v : HVal) (k' : String)
    (h : k' ≠ k) : oget (oset o k v) k' = oget o k' := by
  have h1 : ¬(k = k') := fun hh => h hh.symm
  induction o with
  | nil => simp [oget, oset, List.find?, h1]
  | cons p rest ih =>
    by_cases hp : p.1 = k
    · simp only [oset, hp, if_true]
      have h1 : ¬(k = k') := fun hh => h hh.symm
      have h2 : ¬(p.1 = k') := by rw [hp]; exact h1
      simp [oget, List.find?, h1, h2]
    · simp only [oset, hp, if_false]
      by_cases hp' : p.1 = k'
      · simp [oget, List.find?, hp']
      · simp only [oget, List.find?] at ih ⊢
        simp [hp', ih]

/-- `step_max_context` leaves every key but `max_context` unchanged. -/
theorem step_max_context_frame (dms dms' : Obj)
    (h : step_max_context dms = some dms') (k : String)
    (hk : k ≠ "max_context") : oget dms' k = oget dms k := by
  unfold step_max_context at h
  split at h
  · cases h
    rfl
  · rw [Option.map_eq_some'] at h
    obtain ⟨n, -, rfl⟩ := h
    exact oget_oset_other _ _ _ _ hk

/-- A `max_context` missing from the source stays missing. -/
theorem step_max_context_none (dms dms' : Obj)
    (h : step_max_context dms = some dms')
    (h0 : oget dms "max_context" = none) : oget dms' "max_context" = none := by
  unfold step_max_context at h
  rw [h0] at h
  cases h
  exact h0

/-- `step_max_num_seqs` leaves every key but `max_num_seqs` unchanged. -/
theorem step_max_num_seqs_frame (dms dms' : Obj)
    (h : step_max_num_seqs dms = some dms') (k : String)
    (hk : k ≠ "max_num_seqs") : oget dms' k = oget dms k := by
  unfold step_max_num_seqs at h
  split at h
  · cases h
    rfl
  · rw [Option.map_eq_some'] at h
    obtain ⟨n, -, rfl⟩ := h
    exact oget_oset_other _ _ _ _ hk

/-- A `max_num_seqs` missing from the source stays missing. -/
theorem step_max_num_seqs_none (dms dms' : Obj)
    (h : step_max_num_seqs dms = some dms')
    (h0 : oget dms "max_num_seqs" = none) : oget dms' "max_num_seqs" = none := by
  unfold step_max_num_seqs at h
  rw [h0] at h
  cases h
  exact h0

/-- Reading the freshly appended object. -/
theorem readObj_concat_self (st : Store) (o : Obj) :
    readObj (st ++ [o]) st.length = o := by
  simp [readObj, List.getElem?_concat_length]

/-- Appending objects does not change existing addresses. -/
theorem readObj_append_left (st : Store) (l : List Obj) (a : Nat)
    (h : a < st.length) : readObj (st ++ l) a = readObj st a := by
  simp [readObj, List.getElem?_append_left h]

/-- Reading back a written object. -/
theorem readObj_writeObj_self (st : Store) (a : Nat) (o : Obj)
    (h : a < st.length) : readObj (writeObj st a o) a = o := by
  simp [readObj, writeObj, List.getElem?_set_self h]

/-- Writing one address does not change another. -/
theorem readObj_writeObj_other (st : Store) (a b : Nat) (o : Obj)
    (h : b ≠ a) : readObj (writeObj st a o) b = readObj st b := by
  simp [readObj, writeObj, List.getElem?_set_ne (fun hh => h hh.symm)]

/-- The success path of `apply_conservative_params`: when the record's
resource map is a live dict and both numeric steps succeed, the call
returns the record copy at address `st.length` with the derived resource
map at `st.length + 1`, and every pre-existing object — the input record
and its resource map included — is unchanged in the final store. -/
theorem apply_conservative_params_success (st : Store) (spec : Nat)
    (dmsA : Nat) (dms1 dms2 : Obj)
    (hdA : dmsA < st.length)
    (hdms : oget (readObj st spec) "device_model_spec" = some (.ref dmsA))
    (h1 : step_max_context (readObj st dmsA) = some dms1)
    (h2 : step_max_num_seqs dms1 = some dms2) :
    ∃ stF, apply_conservative_params st spec = some (stF, st.length) ∧
      (∀ a, a < st.length → readObj stF a = readObj st a) ∧
      readObj stF st.length =
        oset (oset (readObj st spec) "device_model_spec"
          (.ref (st.length + 1))) "_is_experimental" (.bool true) ∧
      readObj stF (st.length + 1) = dms2 := by
  have hspecObj : readObj (st ++ [readObj st spec]) st.length = readObj st spec :=
    readObj_concat_self st _
  have hb : dms_bindings (st ++ [readObj st spec])
      (readObj (st ++ [readObj st spec]) st.length) = some (readObj st dmsA) := by
    rw [hspecObj]
    unfold dms_bindings
    rw [hdms]
    dsimp only
    rw [readObj_append_left st _ dmsA hdA]
  have hlen1 : (st ++ [readObj st spec]).length = st.length + 1 := by simp
  refine ⟨writeObj (st ++ [readObj st spec] ++ [dms2]) st.length
      (oset (oset (readObj st spec) "device_model_spec" (.ref (st.length + 1)))
        "_is_experimental" (.bool true)), ?_, ?_, ?_, ?_⟩
  · unfold apply_conservative_params
    rw [hb]
    dsimp only
    rw [h1]
    dsimp only
    rw [h2]
    dsimp only
    rw [readObj_append_left _ _ _ (by simp), hspecObj, hlen1]
  · intro a ha
    rw [readObj_writeObj_other _ _ _ _ (by omega),
      readObj_append_left _ _ _ (by simp; omega),
      readObj_append_left _ _ _ ha]
  · rw [readObj_writeObj_self _ _ _ (by simp)]
  · rw [readObj_writeObj_other _ _ _ _ (by omega), ← hlen1]
    exact readObj_concat_self _ _

/-- C6: `apply_conservative_params` leaves the input record and its nested
resource map unchanged (it mutates only fresh copies), and on the returned
copy replaces `max_context`, when present, by `int(value * 0.67)` and
`max_num_seqs`, when present, by `max(1, int(value * 0.67))`, so the latter
is never 0 or negative. -/
theorem C6_apply_conservative_params (st : Store) (spec dmsA : Nat)
    (mc ms : Option Int)
    (hspec : spec < st.length) (hdA : dmsA < st.length)
    (hdms : oget (readObj st spec) "device_model_spec" = some (.ref dmsA))
    (hmc : oget (readObj st dmsA) "max_context" = mc.map HVal.int)
    (hms : oget (readObj st dmsA) "max_num_seqs" = ms.map HVal.int) :
    ∃ stF, apply_conservative_params st spec = some (stF, st.length) ∧
      readObj stF spec = readObj st spec ∧
      readObj stF dmsA = readObj st dmsA ∧
      oget (readObj stF st.length) "device_model_spec" =
        some (.ref (st.length + 1)) ∧
      oget (readObj stF (st.length + 1)) "max_context" =
        (mc.map fun n => HVal.int (Int.tdiv (n * 67) 100)) ∧
      oget (readObj stF (st.length + 1)) "max_num_seqs" =
        (ms.map fun n => HVal.int (max 1 (Int.tdiv (n * 67) 100))) := by
  obtain ⟨dms1, hs1, hmc1, hms1⟩ :
      ∃ dms1, step_max_context (readObj st dmsA) = some dms1 ∧
        oget dms1 "max_context" =
          (mc.map fun n => HVal.int (Int.tdiv (n * 67) 100)) ∧
        oget dms1 "max_num_seqs" = ms.map HVal.int := by
    cases mc with
    | none =>
      rw [Option.map_none'] at hmc
      refine ⟨readObj st dmsA, ?_, by rw [Option.map_none', hmc], hms⟩
      unfold step_max_context
      rw [hmc]
    | some n =>
      rw [Option.map_some'] at hmc
      refine ⟨oset (readObj st dmsA) "max_context"
        (.int (Int.tdiv (n * 67) 100)), ?_, ?_, ?_⟩
      · unfold step_max_context
        rw [hmc]
        rfl
      · rw [Option.map_some', oget_oset_same]
      · rw [oget_oset_other _ _ _ _ (by decide), hms]
  obtain ⟨dms2, hs2, hmc2, hms2⟩ :
      ∃ dms2, step_max_num_seqs dms1 = some dms2 ∧
        oget dms2 "max_context" =
          (mc.map fun n => HVal.int (Int.tdiv (n * 67) 100)) ∧
        oget dms2 "max_num_seqs" =
          (ms.map fun n => HVal.int (max 1 (Int.tdiv (n * 67) 100))) := by
    cases ms with
    | none =>
      rw [Option.map_none'] at hms1
      refine ⟨dms1, ?_, hmc1, by rw [Option.map_none', hms1]⟩
      unfold step_max_num_seqs
      rw [hms1]
    | some m =>
      rw [Option.map_some'] at hms1
      refine ⟨oset dms1 "max_num_seqs"
        (.int (max 1 (Int.tdiv (m * 67) 100))), ?_, ?_, ?_⟩
      · unfold step_max_num_seqs
        rw [hms1]
        rfl
      · rw [oget_oset_other _ _ _ _ (by decide), hmc1]
      · rw [Option.map_some', oget_oset_same]
  obtain ⟨stF, happ, hpre, hrec, hd2⟩ :=
    apply_conservative_params_success st spec dmsA dms1 dms2 hdA hdms hs1 hs2
  refine ⟨stF, happ, hpre spec hspec, hpre dmsA hdA, ?_, ?_, ?_⟩
  · rw [hrec, oget_oset_other _ _ _ _ (by decide), oget_oset_same]
  · rw [hd2]
    exact hmc2
  · rw [hd2]
    exact hms2

/-- C6 witness: on the concrete store the derivation yields 67 and 2 on the
copy and leaves both input objects unchanged. -/
theorem C6_apply_conservative_params_witness :
    ∃ stF, apply_conservative_params conservStore 0 = some (stF, 2) ∧
      readObj stF 0 = readObj conservStore 0 ∧
      readObj stF 1 = readObj conservStore 1 ∧
      oget (readObj stF 2) "device_model_spec" = some (.ref 3) ∧
      oget (readObj stF 3) "max_context" = some (.int 67) ∧
      oget (readObj stF 3) "max_num_seqs" = some (.int 2) := by
  obtain ⟨stF, h1, h2, h3, h4, h5, h6⟩ :=
    C6_apply_conservative_params conservStore 0 1 (some 100) (some 3)
      (by decide) (by decide) (by decide) (by decide) (by decide)
  exact ⟨stF, h1, h2, h3, h4, h5.trans (by decide), h6.trans (by decide)⟩

/-! ### Claim C8 — non-numeric resource values -/

/-- C8: on a non-numeric `max_context` the code does not leave the field
untouched — `int("many" * 0.67)` raises `TypeError`, so the embedded
function aborts with an error instead of returning a record. -/
theorem C8_non_numeric_raises :
    apply_conservative_params badConservStore 0 = Option.none := by decide

/-! ### Claim C10 — frame of the conservative derivation -/

/-- C10: on the returned copy, every top-level field other than
`device_model_spec` and the experimental flag keeps its source value, the
experimental flag is set to true, every resource-map field other than
`max_context`/`max_num_seqs` keeps its source value, and fields absent from
the source resource map stay absent. -/
theorem C10_apply_conservative_params_frame :
    ∀ (st : Store) (spec dmsA : Nat) (stF : Store) (cs : Nat),
      dmsA < st.length →
      oget (readObj st spec) "device_model_spec" = some (.ref dmsA) →
      apply_conservative_params st spec = some (stF, cs) →
      cs = st.length ∧
      (∀ k, k ≠ "device_model_spec" → k ≠ "_is_experimental" →
        oget (readObj stF cs) k = oget (readObj st spec) k) ∧
      oget (readObj stF cs) "_is_experimental" = some (.bool true) ∧
      (∀ k, k ≠ "max_context" → k ≠ "max_num_seqs" →
        oget (readObj stF (st.length + 1)) k = oget (readObj st dmsA) k) ∧
      (oget (readObj st dmsA) "max_context" = Option.none →
        oget (readObj stF (st.length + 1)) "max_context" = Option.none) ∧
      (oget (readObj st dmsA) "max_num_seqs" = Option.none →
        oget (readObj stF (st.length + 1)) "max_num_seqs" = Option.none) := by
  intro st spec dmsA stF cs hdA hdms happ
  have happ0 := happ
  have hb : dms_bindings (st ++ [readObj st spec])
      (readObj (st ++ [readObj st spec]) st.length) = some (readObj st dmsA) := by
    rw [readObj_concat_self]
    unfold dms_bindings
    rw [hdms]
    dsimp only
    rw [readObj_append_left st _ dmsA hdA]
  unfold apply_conservative_params at happ
  rw [hb] at happ
  dsimp only at happ
  cases hs1 : step_max_context (readObj st dmsA) with
  | none =>
    rw [hs1] at happ
    cases happ
  | some dms1 =>
    rw [hs1] at happ
    dsimp only at happ
    cases hs2 : step_max_num_seqs dms1 with
    | none =>
      rw [hs2] at happ
      cases happ
    | some dms2 =>
      rw [hs2] at happ
      dsimp only at happ
      obtain ⟨stF', happ', hpre', hrec', hd2'⟩ :=
        apply_conservative_params_success st spec dmsA dms1 dms2 hdA hdms hs1 hs2
      rw [happ'] at happ0
      rw [Option.some.injEq, Prod.mk.injEq] at happ0
      obtain ⟨hstF, hcs⟩ := happ0
      subst hstF
      subst hcs
      refine ⟨rfl, ?_, ?_, ?_, ?_, ?_⟩
      · intro k hk1 hk2
        rw [hrec', oget_oset_other _ _ _ _ hk2, oget_oset_other _ _ _ _ hk1]
      · rw [hrec', oget_oset_same]
      · intro k hk1 hk2
        rw [hd2', step_max_num_seqs_frame dms1 dms2 hs2 k hk2,
          step_max_context_frame _ dms1 hs1 k hk1]
      · intro h0
        rw [hd2', step_max_num_seqs_frame dms1 dms2 hs2 _ (by decide)]
        exact step_max_context_none _ dms1 hs1 h0
      · intro h0
        refine step_max_num_seqs_none dms1 dms2 hs2 ?_ ▸ hd2' ▸ rfl
        rw [step_max_context_frame _ dms1 hs1 _ (by decide)]
        exact h0

/-- C10 witness: on `frameStore` the copy keeps `model_name`, flips the
experimental flag to true, keeps `block_size` on the derived map, and the
absent `max_context`/`max_num_seqs` stay absent. -/
theorem C10_apply_conservative_params_frame_witness :
    oget (readObj frameStoreResult 2) "model_name" = some (.str (S "m")) ∧
    oget (readObj frameStoreResult 2) "_is_experimental" = some (.bool true) ∧
    oget (readObj frameStoreResult 3) "block_size" = some (.int 64) ∧
    oget (readObj frameStoreResult 3) "max_context" = Option.none ∧
    oget (readObj frameStoreResult 3) "max_num_seqs" = Option.none := by
  have h := C10_apply_conservative_params_frame frameStore 0 1 frameStoreResult 2
    (by decide) (by decide) (by decide)
  exact ⟨(h.2.1 "model_name" (by decide) (by decide)).trans (by decide),
    h.2.2.1,
    (h.2.2.2.1 "block_size" (by decide) (by decide)).trans (by decide),
    h.2.2.2.2.1 (by decide),
    h.2.2.2.2.2 (by decide)⟩

example :
    (apply_conservative_params
      [[("device_model_spec", HVal.ref 1)], [("max_num_seqs", HVal.int 1)]] 0).map
        (fun p => oget (readObj p.1 3) "max_num_seqs") =
      some (some (.int 1)) := by decide
